import Mathlib

/-!
Verification of the MCP BigQuery server (`src/mcp_server_bigquery/server.py`).

The development shallowly embeds the server's data model and operations:

* a JSON value model with a renderer faithful to Python's
  `json.dumps(x, indent=2)` (ASCII output, `", "`/`": "` separators, two-space
  indentation, `\uXXXX` escapes with surrogate pairs) and a parser modelling
  `json.loads` on the value domain used by the server (scalars restricted to
  integers; IEEE floats are outside the model);
* the `BigQueryDatabase` helper class, with the external
  `google.cloud.bigquery` client abstracted as a record of capability
  functions, and each backend call recorded in an explicit trace so that
  "no backend call is made" is a provable statement;
* the three FastMCP tool handlers `execute_query`, `list_tables` and
  `describe_table`, the `get_db` accessor with its module-global handle, the
  `/mcp` status endpoint constant, and the environment-driven initialization
  `init_db_from_env`.

Python exceptions are modelled by `Except String`, carrying `str(e)`.
-/

namespace MCPBigQuery

/-! ## JSON value model -/

/-- JSON values as produced by the BigQuery row conversion and consumed by
`json.dumps`: null, booleans, (integer) numbers, strings, arrays, and
records.  Python floats are outside the model. -/
inductive Value where
  | vnull
  | vbool (b : Bool)
  | vint (n : Int)
  | vstr (s : String)
  | varr (items : List Value)
  | vobj (fields : List (String × Value))

/-- A result row: a mapping from column name to value, in column order
(`dict(row.items())` in the source). -/
abbrev Record := List (String × Value)

/-! ### Rendering, faithful to `json.dumps(x, indent=2)` -/

/-- Decimal digit character. -/
def digitCh (d : Nat) : Char := Char.ofNat (48 + d)

/-- Is `c` an ASCII decimal digit? -/
def isDigitCh (c : Char) : Bool := 48 ≤ c.toNat && c.toNat ≤ 57

/-- Lowercase hexadecimal digit character, as produced by Python's
`'\\u%04x' % n`. -/
def hexDigitCh (d : Nat) : Char :=
  if d < 10 then Char.ofNat (48 + d) else Char.ofNat (87 + d)

/-- Four lowercase hex digits of `n < 0x10000`, most significant first. -/
def toHex4 (n : Nat) : List Char :=
  [hexDigitCh (n / 4096 % 16), hexDigitCh (n / 256 % 16),
   hexDigitCh (n / 16 % 16), hexDigitCh (n % 16)]

/-- Decimal digits of `n`, most significant first; `fuel` bounds recursion. -/
def natCharsAux : Nat → Nat → List Char
  | 0, _ => []
  | fuel + 1, n =>
    if n < 10 then [digitCh n] else natCharsAux fuel (n / 10) ++ [digitCh (n % 10)]

/-- Decimal representation of a natural number (Python `repr`). -/
def natChars (n : Nat) : List Char := natCharsAux (n + 1) n

/-- Decimal representation of an integer (Python `repr`). -/
def intChars (n : Int) : List Char :=
  if n < 0 then '-' :: natChars n.natAbs else natChars n.toNat

/-- Escape one character the way `json.encoder.py_encode_basestring_ascii`
does: the seven short escapes, printable ASCII verbatim, and `\uXXXX`
(with a surrogate pair beyond the BMP) for everything else. -/
def escapeChar (c : Char) : List Char :=
  if c = '"' then ['\\', '"']
  else if c = '\\' then ['\\', '\\']
  else if c = '\n' then ['\\', 'n']
  else if c = '\r' then ['\\', 'r']
  else if c = '\t' then ['\\', 't']
  else if c.toNat = 8 then ['\\', 'b']
  else if c.toNat = 12 then ['\\', 'f']
  else if 32 ≤ c.toNat ∧ c.toNat ≤ 126 then [c]
  else if c.toNat < 65536 then '\\' :: 'u' :: toHex4 c.toNat
  else '\\' :: 'u' :: toHex4 (55296 + (c.toNat - 65536) / 1024) ++
       '\\' :: 'u' :: toHex4 (56320 + (c.toNat - 65536) % 1024)

/-- Escape a character list. -/
def escList : List Char → List Char
  | [] => []
  | c :: cs => escapeChar c ++ escList cs

/-- A JSON string literal for `s`. -/
def encodeString (s : String) : List Char := '"' :: escList s.data ++ ['"']

/-- Newline followed by `d` spaces: the separator `json.dumps` inserts for
`indent=2` at nesting depth `d / 2`. -/
def nlInd (d : Nat) : List Char := '\n' :: List.replicate d ' '

mutual

/-- Render a value at current indentation width `d`, exactly as
`json.dumps(v, indent=2)` lays it out. -/
def renderValue : Nat → Value → List Char
  | _, .vnull => ['n', 'u', 'l', 'l']
  | _, .vbool true => ['t', 'r', 'u', 'e']
  | _, .vbool false => ['f', 'a', 'l', 's', 'e']
  | _, .vint n => intChars n
  | _, .vstr s => encodeString s
  | _, .varr [] => ['[', ']']
  | d, .varr (v :: vs) =>
    '[' :: nlInd (d + 2) ++ renderValue (d + 2) v ++ renderItemsTail (d + 2) vs ++
      nlInd d ++ [']']
  | _, .vobj [] => ['\x7b', '\x7d']
  | d, .vobj ((k, v) :: fs) =>
    '\x7b' :: nlInd (d + 2) ++ encodeString k ++ ':' :: ' ' :: renderValue (d + 2) v ++
      renderFieldsTail (d + 2) fs ++ nlInd d ++ ['\x7d']
termination_by structural d v => v

/-- Render `", item"` groups for the remaining array elements. -/
def renderItemsTail : Nat → List Value → List Char
  | _, [] => []
  | d, v :: vs => ',' :: nlInd d ++ renderValue d v ++ renderItemsTail d vs
termination_by structural d l => l

/-- Render `", \"key\": value"` groups for the remaining object fields. -/
def renderFieldsTail : Nat → List (String × Value) → List Char
  | _, [] => []
  | d, (k, v) :: fs =>
    ',' :: nlInd d ++ encodeString k ++ ':' :: ' ' :: renderValue d v ++
      renderFieldsTail d fs
termination_by structural d l => l

end

/-- Model of `json.dumps(v, indent=2)`. -/
def dumps (v : Value) : String := String.mk (renderValue 0 v)

/-! ### Parsing, modelling `json.loads` on the embedded domain -/

/-- JSON whitespace (`json.decoder` skips over `' '`, `'\t'`, `'\n'`, `'\r'`). -/
def isWsChar (c : Char) : Bool := c.toNat = 32 || c.toNat = 9 || c.toNat = 10 || c.toNat = 13

/-- Drop leading JSON whitespace. -/
def skipWs : List Char → List Char
  | [] => []
  | c :: cs => if isWsChar c then skipWs cs else c :: cs

/-- The continuation after a rendered number must not begin with a digit
(matching the maximal-munch number scanner). -/
def restOk : List Char → Bool
  | [] => true
  | c :: _ => !isDigitCh c

/-- Accumulate decimal digits into a natural number. -/
def digitsToNat : List Char → Nat → Nat
  | [], acc => acc
  | c :: cs, acc => digitsToNat cs (acc * 10 + (c.toNat - 48))

/-- Scan a maximal nonempty digit run into a natural number. -/
def parseNum (cs : List Char) : Option (Nat × List Char) :=
  let ds := cs.takeWhile isDigitCh
  if ds.isEmpty then none else some (digitsToNat ds 0, cs.dropWhile isDigitCh)

/-- Value of one hexadecimal digit (either case accepted, as in `json`). -/
def hexVal (c : Char) : Option Nat :=
  if 48 ≤ c.toNat ∧ c.toNat ≤ 57 then some (c.toNat - 48)
  else if 97 ≤ c.toNat ∧ c.toNat ≤ 102 then some (c.toNat - 87)
  else if 65 ≤ c.toNat ∧ c.toNat ≤ 70 then some (c.toNat - 55)
  else none

/-- Value of a four-digit hex escape body. -/
def hex4 (h1 h2 h3 h4 : Char) : Option Nat :=
  match hexVal h1, hexVal h2, hexVal h3, hexVal h4 with
  | some a, some b, some c, some d => some (((a * 16 + b) * 16 + c) * 16 + d)
  | _, _, _, _ => none

/-- Decode a single-character escape (`json.decoder.BACKSLASH`). -/
def escDecode (c : Char) : Option Char :=
  if c = '"' then some '"'
  else if c = '\\' then some '\\'
  else if c = '/' then some '/'
  else if c = 'b' then some (Char.ofNat 8)
  else if c = 'f' then some (Char.ofNat 12)
  else if c = 'n' then some '\n'
  else if c = 'r' then some '\r'
  else if c = 't' then some '\t'
  else none

mutual

/-- Parse a JSON string body after the opening quote, up to and including the
closing quote, decoding escapes and surrogate pairs (`json.decoder.py_scanstring`;
lone surrogates fall outside the `String` model and are rejected). -/
def parseStringBody : List Char → Option (List Char × List Char)
  | [] => none
  | c :: cs =>
    if c = '"' then some ([], cs)
    else if c = '\\' then parseEsc cs
    else if c.toNat < 32 then none
    else (parseStringBody cs).map (fun p => (c :: p.1, p.2))
termination_by structural cs => cs

/-- Parse a string body continuation after a backslash. -/
def parseEsc : List Char → Option (List Char × List Char)
  | [] => none
  | e :: cs' =>
    if e = 'u' then parseHexEsc cs'
    else
      match escDecode e with
      | none => none
      | some d => (parseStringBody cs').map (fun p => (d :: p.1, p.2))
termination_by structural cs => cs

/-- Parse a string body continuation after `\u`. -/
def parseHexEsc : List Char → Option (List Char × List Char)
  | h1 :: h2 :: h3 :: h4 :: cs'' =>
    match hex4 h1 h2 h3 h4 with
    | none => none
    | some n =>
      if 55296 ≤ n ∧ n ≤ 56319 then parseLowSurrogate n cs''
      else if 56320 ≤ n ∧ n ≤ 57343 then none
      else (parseStringBody cs'').map (fun p => (Char.ofNat n :: p.1, p.2))
  | _ => none
termination_by structural cs => cs

/-- Parse the low half of a surrogate pair after a high-surrogate `\uXXXX`. -/
def parseLowSurrogate (n : Nat) : List Char → Option (List Char × List Char)
  | b1 :: b2 :: l1 :: l2 :: l3 :: l4 :: cs3 =>
    if b1 = '\\' ∧ b2 = 'u' then
      match hex4 l1 l2 l3 l4 with
      | none => none
      | some m =>
        if 56320 ≤ m ∧ m ≤ 57343 then
          (parseStringBody cs3).map
            (fun p => (Char.ofNat (65536 + (n - 55296) * 1024 + (m - 56320)) :: p.1, p.2))
        else none
    else none
  | _ => none
termination_by structural cs => cs

end

mutual

/-- Parse one JSON value; `fuel` bounds the nesting recursion. -/
def parseValue : Nat → List Char → Option (Value × List Char)
  | 0, _ => none
  | fuel + 1, cs =>
    match skipWs cs with
    | [] => none
    | c :: cs' =>
      if c = 'n' then
        match cs' with
        | a :: b :: e :: r => if a = 'u' ∧ b = 'l' ∧ e = 'l' then some (.vnull, r) else none
        | _ => none
      else if c = 't' then
        match cs' with
        | a :: b :: e :: r => if a = 'r' ∧ b = 'u' ∧ e = 'e' then some (.vbool true, r) else none
        | _ => none
      else if c = 'f' then
        match cs' with
        | a :: b :: e :: g :: r =>
          if a = 'a' ∧ b = 'l' ∧ e = 's' ∧ g = 'e' then some (.vbool false, r) else none
        | _ => none
      else if c = '"' then
        (parseStringBody cs').map (fun p => (.vstr (String.mk p.1), p.2))
      else if c = '-' then
        (parseNum cs').map (fun p => (.vint (-(p.1 : Int)), p.2))
      else if isDigitCh c then
        (parseNum (c :: cs')).map (fun p => (.vint (p.1 : Int), p.2))
      else if c = '[' then
        match skipWs cs' with
        | x :: r => if x = ']' then some (.varr [], r)
                    else (parseElems fuel cs').map (fun p => (.varr p.1, p.2))
        | [] => (parseElems fuel cs').map (fun p => (.varr p.1, p.2))
      else if c = '\x7b' then
        match skipWs cs' with
        | x :: r => if x = '\x7d' then some (.vobj [], r)
                    else (parseFields fuel cs').map (fun p => (.vobj p.1, p.2))
        | [] => (parseFields fuel cs').map (fun p => (.vobj p.1, p.2))
      else none
termination_by structural fuel => fuel

/-- Parse the elements of a nonempty array, consuming the closing bracket. -/
def parseElems : Nat → List Char → Option (List Value × List Char)
  | 0, _ => none
  | fuel + 1, cs =>
    match parseValue fuel cs with
    | none => none
    | some (v, r) =>
      match skipWs r with
      | [] => none
      | x :: r' =>
        if x = ',' then
          match parseElems fuel r' with
          | none => none
          | some (vs, r'') => some (v :: vs, r'')
        else if x = ']' then some ([v], r')
        else none
termination_by structural fuel => fuel

/-- Parse the fields of a nonempty object, consuming the closing brace. -/
def parseFields : Nat → List Char → Option (List (String × Value) × List Char)
  | 0, _ => none
  | fuel + 1, cs =>
    match skipWs cs with
    | [] => none
    | q :: cs' =>
      if q = '"' then
        match parseStringBody cs' with
        | none => none
        | some (k, r1) =>
          match skipWs r1 with
          | [] => none
          | y :: r2 =>
            if y = ':' then
              match parseValue fuel r2 with
              | none => none
              | some (v, r3) =>
                match skipWs r3 with
                | [] => none
                | z :: r4 =>
                  if z = ',' then
                    match parseFields fuel r4 with
                    | none => none
                    | some (fs, r5) => some ((String.mk k, v) :: fs, r5)
                  else if z = '\x7d' then some ([(String.mk k, v)], r4)
                  else none
            else none
      else none
termination_by structural fuel => fuel

end

/-- Model of `json.loads`: parse one value and require only whitespace after
it. -/
def loads (s : String) : Option Value :=
  match parseValue (s.data.length + 1) s.data with
  | some (v, rest) => if (skipWs rest).isEmpty then some v else none
  | none => none

mutual

/-- Fuel weight of a value: enough `parseValue` fuel to parse its rendering. -/
def weightV : Value → Nat
  | .varr items => 1 + weightL items
  | .vobj fields => 1 + weightF fields
  | _ => 1
termination_by structural v => v

/-- Fuel weight of remaining array elements. -/
def weightL : List Value → Nat
  | [] => 1
  | v :: vs => 1 + weightV v + weightL vs
termination_by structural l => l

/-- Fuel weight of remaining object fields. -/
def weightF : List (String × Value) → Nat
  | [] => 1
  | (_, v) :: fs => 1 + weightV v + weightF fs
termination_by structural l => l

end

/-! ## The server embedding

Embeds `src/mcp_server_bigquery/server.py`.  The external
`google.cloud.bigquery.Client` is abstracted as a `Client` record of the three
capabilities the server uses; every call to `Client.runQuery` made by
`BigQueryDatabase` is recorded in a trace (a `List Call`), so claims of the
form "no backend call is made" are directly statable. -/

/-- A `bigquery.ScalarQueryParameter(name, type_, value)`. -/
structure Param where
  name : String
  ptype : String
  value : String
deriving DecidableEq

/-- One backend query call: the SQL text passed to `client.query` and the
query parameters from the `job_config`, if any. -/
abbrev Call := String × List Param

/-- The external BigQuery client capability: `client.query(...).result()`
(with rows already converted to records), `client.list_datasets()`, and
`client.list_tables(dataset_id)`.  Failures model raised exceptions. -/
structure Client where
  runQuery : String → List Param → Except String (List Record)
  list_datasets : Except String (List String)
  list_tables : String → Except String (List String)

/-- The `BigQueryDatabase` helper: the client plus the datasets filter
(`self.client` and `self.datasets_filter`). -/
structure BigQueryDatabase where
  client : Client
  datasets_filter : List String

/-- `BigQueryDatabase.execute_query`: logs, forwards the query text and
parameters verbatim to the client, and re-raises any backend error.  The
first component is the trace of backend calls made. -/
def BigQueryDatabase.execute_query (db : BigQueryDatabase) (query : String)
    (params : List Param) : List Call × Except String (List Record) :=
  ([(query, params)], db.client.runQuery query params)

/-- Python `table_name.split(".")`: split on every dot, keeping empty
segments. -/
def pySplitDotChars : List Char → List (List Char)
  | [] => [[]]
  | c :: cs =>
    if c = '.' then [] :: pySplitDotChars cs
    else
      match pySplitDotChars cs with
      | [] => [[c]]
      | g :: gs => (c :: g) :: gs

/-- Python `s.split(".")` on strings. -/
def pySplitDot (s : String) : List String := (pySplitDotChars s.data).map String.mk

/-- The `INFORMATION_SCHEMA` query text built by `describe_table` for a
dataset; only the dataset segment is interpolated into the f-string. -/
def describeQuery (dataset_id : String) : String :=
  "\n            SELECT ddl\n            FROM " ++ dataset_id ++
    ".INFORMATION_SCHEMA.TABLES\n            WHERE table_name = @table_name;\n        "

/-- `BigQueryDatabase.describe_table`: split the name on dots, require exactly
two segments (else `ValueError`), and query `INFORMATION_SCHEMA.TABLES` with
the table segment bound to the `@table_name` parameter. -/
def BigQueryDatabase.describe_table (db : BigQueryDatabase) (table_name : String) :
    List Call × Except String (List Record) :=
  match pySplitDot table_name with
  | [dataset_id, table_id] =>
    db.execute_query (describeQuery dataset_id) [⟨"table_name", "STRING", table_id⟩]
  | _ => ([], .error ("Invalid table name: " ++ table_name))

/-- Qualify and collect the tables of each dataset in order, as the loop in
`list_tables` does; a backend error while listing propagates. -/
def collectTables (c : Client) : List String → Except String (List String)
  | [] => .ok []
  | d :: ds =>
    match c.list_tables d with
    | .error e => .error e
    | .ok ts =>
      match collectTables c ds with
      | .error e => .error e
      | .ok rest => .ok (ts.map (fun t => d ++ "." ++ t) ++ rest)

/-- `BigQueryDatabase.list_tables`: use the datasets filter when nonempty,
otherwise ask the client for all datasets, then list each dataset's tables. -/
def BigQueryDatabase.list_tables (db : BigQueryDatabase) : Except String (List String) :=
  match (if db.datasets_filter.isEmpty then db.client.list_datasets
         else .ok db.datasets_filter) with
  | .error e => .error e
  | .ok ds => collectTables db.client ds

/-- The module state: the global `_db : Optional[BigQueryDatabase]`. -/
structure ServerState where
  db : Option BigQueryDatabase

/-- `get_db`: return the shared handle, raising `RuntimeError` when the
module global is still `None`. -/
def get_db (st : ServerState) : Except String BigQueryDatabase :=
  match st.db with
  | none => .error "BigQueryDatabase not initialized"
  | some db => .ok db

/-- Embed a backend row list as the JSON value passed to `json.dumps`. -/
def recordsValue (rows : List Record) : Value := .varr (rows.map .vobj)

/-- Embed a table-name list as the JSON value passed to `json.dumps`. -/
def stringsValue (ts : List String) : Value := .varr (ts.map .vstr)

/-- The `execute_query` tool handler: `get_db()` outside the `try`, then the
query result pretty-printed, with any caught exception converted to an
`"Error: ..."` string. -/
def execute_query (st : ServerState) (query : String) : Except String String :=
  match get_db st with
  | .error e => .error e
  | .ok db =>
    match (db.execute_query query []).2 with
    | .ok results => .ok (dumps (recordsValue results))
    | .error e => .ok ("Error: " ++ e)

/-- The `list_tables` tool handler. -/
def list_tables (st : ServerState) : Except String String :=
  match get_db st with
  | .error e => .error e
  | .ok db =>
    match db.list_tables with
    | .ok tables => .ok (dumps (stringsValue tables))
    | .error e => .ok ("Error: " ++ e)

/-- The `describe_table` tool handler. -/
def describe_table (st : ServerState) (table_name : String) : Except String String :=
  match get_db st with
  | .error e => .error e
  | .ok db =>
    match (db.describe_table table_name).2 with
    | .ok schema => .ok (dumps (recordsValue schema))
    | .error e => .ok ("Error: " ++ e)

/-! ### Tool registry (the three `@mcp.tool()` registrations) -/

/-- Wire-level argument types appearing in the tool signatures. -/
inductive JType where
  | string
deriving DecidableEq

/-- A registered tool: its wire name, argument schema (name and type, from
the Python signature), and the handler applied to a named-argument list.
The handler returns `none` when the argument shape does not match. -/
structure ToolDecl where
  name : String
  params : List (String × JType)
  run : ServerState → List (String × String) → Option (Except String String)

/-- Wire dispatch of `execute_query(query: string)`. -/
def execute_query_wire (st : ServerState) (args : List (String × String)) :
    Option (Except String String) :=
  match args with
  | [(k, v)] => if k = "query" then some (execute_query st v) else none
  | _ => none

/-- Wire dispatch of `list_tables()`. -/
def list_tables_wire (st : ServerState) (args : List (String × String)) :
    Option (Except String String) :=
  match args with
  | [] => some (list_tables st)
  | _ => none

/-- Wire dispatch of `describe_table(table_name: string)`. -/
def describe_table_wire (st : ServerState) (args : List (String × String)) :
    Option (Except String String) :=
  match args with
  | [(k, v)] => if k = "table_name" then some (describe_table st v) else none
  | _ => none

/-- The tools registered with FastMCP, in registration order. -/
def registeredTools : List ToolDecl :=
  [⟨"execute_query", [("query", .string)], execute_query_wire⟩,
   ⟨"list_tables", [], list_tables_wire⟩,
   ⟨"describe_table", [("table_name", .string)], describe_table_wire⟩]

/-! ### Status endpoint and initialization -/

/-- The path of the SSE streaming endpoint (`@app.get("/mcp/sse")`). -/
def handle_sse_path : String := "/mcp/sse"

/-- The `/mcp` status endpoint response: a constant object, computed without
touching the database handle or any session state. -/
def mcp_status : List (String × Value) :=
  [("status", .vstr "ok"),
   ("message", .vstr "MCP BigQuery server is running."),
   ("sse_endpoint", .vstr "/mcp/sse")]

/-- The relevant environment variables read by `init_db_from_env`. -/
structure Env where
  BQ_PROJECT_ID : Option String
  BQ_LOCATION : Option String
  BQ_KEY_FILE : Option String
  BQ_DATASETS : Option String

/-- `BigQueryDatabase.__init__`: requires a truthy project and location, then
stores the constructed client and the datasets filter.  Credential loading
and `bigquery.Client` construction are external; the resulting client
capability is a parameter. -/
def BigQueryDatabase.init (client : Client) (project location : Option String)
    (datasets_filter : List String) : Except String BigQueryDatabase :=
  if project.getD "" = "" then .error "Project is required"
  else if location.getD "" = "" then .error "Location is required"
  else .ok ⟨client, datasets_filter⟩

/-- `init_db_from_env`: read the environment and construct the single shared
`BigQueryDatabase` stored in the module global. -/
def init_db_from_env (client : Client) (env : Env) : Except String BigQueryDatabase :=
  let datasets :=
    match env.BQ_DATASETS with
    | some s => if s ≠ "" then s.splitOn "," else []
    | none => []
  BigQueryDatabase.init client env.BQ_PROJECT_ID env.BQ_LOCATION datasets

/-- A decoded tool invocation request. -/
inductive Request where
  | executeQuery (query : String)
  | listTables
  | describeTable (table_name : String)

/-- Dispatch one request to its tool handler. -/
def dispatch (st : ServerState) : Request → Except String String
  | .executeQuery q => execute_query st q
  | .listTables => list_tables st
  | .describeTable n => describe_table st n

/-- Serve a request sequence against the module state: each handler only
reads the global handle (none of them assigns `_db`), so the state is
threaded unchanged. -/
def processRequests : ServerState → List Request → ServerState × List (Except String String)
  | st, [] => (st, [])
  | st, r :: rs =>
    let out := dispatch st r
    let (st', outs) := processRequests st rs
    (st', out :: outs)

/-- Process startup as `main` performs it: initialize the shared handle from
the environment once (a failure aborts the process), then serve. -/
def runServer (client : Client) (env : Env) (reqs : List Request) :
    Except String (List (Except String String)) :=
  match init_db_from_env client env with
  | .error e => .error e
  | .ok db => .ok (processRequests ⟨some db⟩ reqs).2

/-- A stub backend used to exercise the handlers on concrete inputs: every
query returns the single row `{"x": 1}`. -/
def stubClient : Client :=
  ⟨fun _ _ => .ok [[("x", .vint 1)]], .ok ["ds"], fun _ => .ok ["t1"]⟩

/-- A database handle over the stub backend. -/
def stubDb : BigQueryDatabase := ⟨stubClient, []⟩

/-- A concrete environment carrying a truthy project and location. -/
def stubEnv : Env := ⟨some "proj", some "loc", none, none⟩

/-- A stub backend whose every capability fails, for exercising the error
branches on concrete inputs. -/
def errClient : Client :=
  ⟨fun _ _ => .error "boom", .error "boom", fun _ => .error "boom"⟩

/-- A database handle over the failing stub backend. -/
def errDb : BigQueryDatabase := ⟨errClient, []⟩

/-! ## An induction principle for the nested `Value` type -/

section ValueInduction

variable (P : Value → Prop) (Q : List Value → Prop) (R : List (String × Value) → Prop)
variable (hnull : P .vnull) (hbool : ∀ b, P (.vbool b)) (hint : ∀ n, P (.vint n))
variable (hstr : ∀ s, P (.vstr s))
variable (harr : ∀ items, Q items → P (.varr items))
variable (hobj : ∀ fields, R fields → P (.vobj fields))
variable (hqnil : Q []) (hqcons : ∀ v vs, P v → Q vs → Q (v :: vs))
variable (hrnil : R []) (hrcons : ∀ k v fs, P v → R fs → R ((k, v) :: fs))

mutual

/-- Structural induction over `Value`, with auxiliary motives for the two
nested list shapes. -/
def valueIndV : ∀ v, P v
  | .vnull => hnull
  | .vbool b => hbool b
  | .vint n => hint n
  | .vstr s => hstr s
  | .varr items => harr items (valueIndL items)
  | .vobj fields => hobj fields (valueIndF fields)
termination_by structural v => v

/-- Induction worker for array element lists. -/
def valueIndL : ∀ l, Q l
  | [] => hqnil
  | v :: vs => hqcons v vs (valueIndV v) (valueIndL vs)
termination_by structural l => l

/-- Induction worker for object field lists. -/
def valueIndF : ∀ l, R l
  | [] => hrnil
  | (k, v) :: fs => hrcons k v fs (valueIndV v) (valueIndF fs)
termination_by structural l => l

end

end ValueInduction

/-- Statement of the serializer/parser round trip for one value: parsing a
rendering of `v` followed by any non-digit-leading continuation returns `v`
and the continuation, for any sufficient fuel. -/
def RoundTrip (v : Value) : Prop :=
  ∀ d rest fuel, restOk rest = true → weightV v ≤ fuel →
    parseValue fuel (renderValue d v ++ rest) = some (v, rest)

/-! ## Character-level lemmas -/

theorem charValid (c : Char) : c.toNat < 55296 ∨ (57343 < c.toNat ∧ c.toNat < 1114112) := by
  have h := c.valid
  unfold UInt32.isValidChar Nat.isValidChar at h
  simp only [Char.toNat]
  rcases h with h | h
  · left; exact_mod_cast h
  · right; constructor <;> omega

theorem toNat_ofNat_valid {n : Nat} (h : n < 55296 ∨ (57343 < n ∧ n < 1114112)) :
    (Char.ofNat n).toNat = n := by
  have hv : n.isValidChar := h
  have h2 : n < 4294967296 := by rcases h with h | h <;> omega
  simp only [Char.ofNat, hv, dite_true, Char.ofNatAux, Char.toNat, UInt32.ofNatCore,
    UInt32.toNat]
  simp [BitVec.toNat_ofNat, Nat.mod_eq_of_lt h2]

theorem digit_toNat {c : Char} (h : isDigitCh c = true) : 48 ≤ c.toNat ∧ c.toNat ≤ 57 := by
  simpa [isDigitCh] using h

theorem ne_of_digitCh {c c₀ : Char} (h : isDigitCh c = true) (h2 : isDigitCh c₀ = false) :
    c ≠ c₀ := by
  intro heq
  subst heq
  simp [h] at h2

theorem isWs_false_of_digit {c : Char} (h : isDigitCh c = true) : isWsChar c = false := by
  have hn := digit_toNat h
  simp only [isWsChar, Bool.or_eq_false_iff, decide_eq_false_iff_not]
  omega

theorem toNat_digitCh {d : Nat} (h : d < 10) : (digitCh d).toNat = 48 + d := by
  unfold digitCh
  exact toNat_ofNat_valid (by omega)

theorem isDigitCh_digitCh {d : Nat} (h : d < 10) : isDigitCh (digitCh d) = true := by
  simp [isDigitCh, toNat_digitCh h]
  omega

/-! ## Hexadecimal lemmas -/

theorem hexVal_hexDigitCh {d : Nat} (h : d < 16) : hexVal (hexDigitCh d) = some d := by
  interval_cases d <;> rfl

theorem hex4_toHex4 {n : Nat} (h : n < 65536) :
    hex4 (hexDigitCh (n / 4096 % 16)) (hexDigitCh (n / 256 % 16))
      (hexDigitCh (n / 16 % 16)) (hexDigitCh (n % 16)) = some n := by
  unfold hex4
  rw [hexVal_hexDigitCh (by omega), hexVal_hexDigitCh (by omega),
    hexVal_hexDigitCh (by omega), hexVal_hexDigitCh (by omega)]
  simp only []
  congr 1
  omega

/-! ## Decimal rendering lemmas -/

theorem natCharsAux_ne_nil : ∀ fuel n, n < fuel → natCharsAux fuel n ≠ [] := by
  intro fuel
  induction fuel with
  | zero => intro n h; omega
  | succ f ih =>
    intro n h
    unfold natCharsAux
    by_cases h10 : n < 10
    · simp [h10]
    · simp [h10]

theorem natCharsAux_digits : ∀ fuel n, n < fuel →
    ∀ c ∈ natCharsAux fuel n, isDigitCh c = true := by
  intro fuel
  induction fuel with
  | zero => intro n h; omega
  | succ f ih =>
    intro n h c hc
    unfold natCharsAux at hc
    by_cases h10 : n < 10
    · rw [if_pos h10] at hc
      simp only [List.mem_singleton] at hc
      subst hc
      exact isDigitCh_digitCh h10
    · rw [if_neg h10] at hc
      rcases List.mem_append.mp hc with hm | hm
      · exact ih (n / 10) (by omega) c hm
      · simp only [List.mem_singleton] at hm
        subst hm
        exact isDigitCh_digitCh (by omega)

theorem digitsToNat_append : ∀ (l1 l2 : List Char) (a : Nat),
    digitsToNat (l1 ++ l2) a = digitsToNat l2 (digitsToNat l1 a) := by
  intro l1
  induction l1 with
  | nil => intro l2 a; rfl
  | cons c cs ih =>
    intro l2 a
    show digitsToNat (cs ++ l2) (a * 10 + (c.toNat - 48))
        = digitsToNat l2 (digitsToNat cs (a * 10 + (c.toNat - 48)))
    exact ih l2 _

theorem digitsToNat_natCharsAux : ∀ fuel n a, n < fuel →
    digitsToNat (natCharsAux fuel n) a = a * 10 ^ (natCharsAux fuel n).length + n := by
  intro fuel
  induction fuel with
  | zero => intro n a h; omega
  | succ f ih =>
    intro n a h
    by_cases h10 : n < 10
    · unfold natCharsAux
      rw [if_pos h10]
      simp [digitsToNat, toNat_digitCh h10]
    · unfold natCharsAux
      rw [if_neg h10]
      rw [digitsToNat_append]
      rw [ih (n / 10) a (by omega)]
      simp only [digitsToNat, toNat_digitCh (show n % 10 < 10 by omega), List.length_append,
        List.length_singleton]
      have e1 : (a * 10 ^ (natCharsAux f (n / 10)).length + n / 10) * 10 + (48 + n % 10 - 48)
          = a * (10 ^ (natCharsAux f (n / 10)).length * 10) + (n / 10 * 10 + n % 10) := by
        have e0 : 48 + n % 10 - 48 = n % 10 := by omega
        rw [e0]; ring
      rw [e1, pow_succ]
      congr 1
      omega

theorem natChars_digits (n : Nat) : ∀ c ∈ natChars n, isDigitCh c = true :=
  natCharsAux_digits (n + 1) n (Nat.lt_succ_self n)

theorem natChars_head (n : Nat) : ∃ c t, natChars n = c :: t ∧ isDigitCh c = true := by
  have hne : natChars n ≠ [] := natCharsAux_ne_nil (n + 1) n (Nat.lt_succ_self n)
  obtain ⟨c, t, hct⟩ := List.exists_cons_of_ne_nil hne
  refine ⟨c, t, hct, natChars_digits n c ?_⟩
  rw [hct]
  exact List.mem_cons_self c t

/-! ## takeWhile / dropWhile over a fully-satisfying prefix -/

theorem takeWhile_append_all {p : Char → Bool} : ∀ (l r : List Char), (∀ c ∈ l, p c = true) →
    (l ++ r).takeWhile p = l ++ r.takeWhile p := by
  intro l
  induction l with
  | nil => intro r _; rfl
  | cons c cs ih =>
    intro r h
    have h1 := h c (List.mem_cons_self c cs)
    simp [List.takeWhile_cons, h1, ih r (fun x hx => h x (List.mem_cons_of_mem c hx))]

theorem dropWhile_append_all {p : Char → Bool} : ∀ (l r : List Char), (∀ c ∈ l, p c = true) →
    (l ++ r).dropWhile p = r.dropWhile p := by
  intro l
  induction l with
  | nil => intro r _; rfl
  | cons c cs ih =>
    intro r h
    have h1 := h c (List.mem_cons_self c cs)
    simp [List.dropWhile_cons, h1, ih r (fun x hx => h x (List.mem_cons_of_mem c hx))]

theorem parseNum_natChars {n : Nat} {rest : List Char} (hr : restOk rest = true) :
    parseNum (natChars n ++ rest) = some (n, rest) := by
  have hne : natChars n ≠ [] := natCharsAux_ne_nil (n + 1) n (Nat.lt_succ_self n)
  have hrt : rest.takeWhile isDigitCh = [] := by
    cases rest with
    | nil => rfl
    | cons c cs =>
      simp only [restOk, Bool.not_eq_true'] at hr
      simp [List.takeWhile_cons, hr]
  have hrd : rest.dropWhile isDigitCh = rest := by
    cases rest with
    | nil => rfl
    | cons c cs =>
      simp only [restOk, Bool.not_eq_true'] at hr
      simp [List.dropWhile_cons, hr]
  unfold parseNum
  simp only [takeWhile_append_all _ _ (natChars_digits n),
    dropWhile_append_all _ _ (natChars_digits n), hrt, hrd, List.append_nil]
  rw [if_neg (by simpa [List.isEmpty_iff] using hne)]
  have hv := digitsToNat_natCharsAux (n + 1) n 0 (Nat.lt_succ_self n)
  have hvn : digitsToNat (natChars n) 0 = n := by
    rw [show natChars n = natCharsAux (n + 1) n from rfl, hv]
    simp
  rw [hvn]

/-! ## Whitespace lemmas -/

theorem skipWs_cons_ws {c : Char} (h : isWsChar c = true) (cs : List Char) :
    skipWs (c :: cs) = skipWs cs := by
  simp [skipWs, h]

theorem skipWs_cons_not_ws {c : Char} (h : isWsChar c = false) (cs : List Char) :
    skipWs (c :: cs) = c :: cs := by
  simp [skipWs, h]

theorem skipWs_replicate_space : ∀ (d : Nat) (cs : List Char),
    skipWs (List.replicate d ' ' ++ cs) = skipWs cs := by
  intro d
  induction d with
  | zero => intro cs; rfl
  | succ k ih =>
    intro cs
    rw [List.replicate_succ, List.cons_append, skipWs_cons_ws (by decide), ih]

theorem skipWs_nlInd (d : Nat) (cs : List Char) : skipWs (nlInd d ++ cs) = skipWs cs := by
  show skipWs ('\n' :: (List.replicate d ' ' ++ cs)) = skipWs cs
  rw [skipWs_cons_ws (by decide), skipWs_replicate_space]

/-! ## Parser whitespace invariance -/

theorem parseValue_ws_cons {c : Char} (h : isWsChar c = true) (fuel : Nat) (cs : List Char) :
    parseValue fuel (c :: cs) = parseValue fuel cs := by
  cases fuel with
  | zero => rfl
  | succ f => simp only [parseValue, skipWs_cons_ws h]

theorem parseValue_nlInd (d fuel : Nat) (cs : List Char) :
    parseValue fuel (nlInd d ++ cs) = parseValue fuel cs := by
  cases fuel with
  | zero => rfl
  | succ f => simp only [parseValue, skipWs_nlInd]

theorem parseElems_nlInd (d fuel : Nat) (cs : List Char) :
    parseElems fuel (nlInd d ++ cs) = parseElems fuel cs := by
  cases fuel with
  | zero => rfl
  | succ f => simp only [parseElems, parseValue_nlInd]

theorem parseFields_nlInd (d fuel : Nat) (cs : List Char) :
    parseFields fuel (nlInd d ++ cs) = parseFields fuel cs := by
  cases fuel with
  | zero => rfl
  | succ f => simp only [parseFields, skipWs_nlInd]

/-! ## String escaping round trip -/

theorem parseStringBody_backslash_u (rest : List Char) :
    parseStringBody ('\\' :: 'u' :: rest) = parseHexEsc rest := by
  simp [parseStringBody, parseEsc]

theorem parseHexEsc_high {n : Nat} (hn : n < 65536) (hsur : 55296 ≤ n ∧ n ≤ 56319)
    (rest : List Char) : parseHexEsc (toHex4 n ++ rest) = parseLowSurrogate n rest := by
  have hx := hex4_toHex4 hn
  simp [parseHexEsc, toHex4, hx, hsur]

theorem parseLowSurrogate_toHex4 (n : Nat) {m : Nat} (hm : m < 65536)
    (hsur : 56320 ≤ m ∧ m ≤ 57343) (cs : List Char) :
    parseLowSurrogate n ('\\' :: 'u' :: (toHex4 m ++ cs))
      = (parseStringBody cs).map
          (fun p => (Char.ofNat (65536 + (n - 55296) * 1024 + (m - 56320)) :: p.1, p.2)) := by
  have hx := hex4_toHex4 hm
  simp [parseLowSurrogate, toHex4, hx, hsur]

theorem parseStringBody_escapeChar (c : Char) (cs : List Char) :
    parseStringBody (escapeChar c ++ cs)
      = (parseStringBody cs).map (fun p => (c :: p.1, p.2)) := by
  have hval := charValid c
  by_cases h1 : c = '"'
  · subst h1; simp [escapeChar, parseStringBody, parseEsc, escDecode]
  by_cases h2 : c = '\\'
  · subst h2; simp [escapeChar, parseStringBody, parseEsc, escDecode]
  by_cases h3 : c = '\n'
  · subst h3; simp [escapeChar, parseStringBody, parseEsc, escDecode]
  by_cases h4 : c = '\r'
  · subst h4; simp [escapeChar, parseStringBody, parseEsc, escDecode]
  by_cases h5 : c = '\t'
  · subst h5; simp [escapeChar, parseStringBody, parseEsc, escDecode]
  by_cases h6 : c.toNat = 8
  · have hc : Char.ofNat 8 = c := by rw [← h6, Char.ofNat_toNat]
    simp [escapeChar, h1, h2, h3, h4, h5, h6, parseStringBody, parseEsc, escDecode]
    simp only [hc]
  by_cases h7 : c.toNat = 12
  · have hc : Char.ofNat 12 = c := by rw [← h7, Char.ofNat_toNat]
    simp [escapeChar, h1, h2, h3, h4, h5, h6, h7, parseStringBody, parseEsc, escDecode]
    simp only [hc]
  by_cases h8 : 32 ≤ c.toNat ∧ c.toNat ≤ 126
  · have h32 : ¬(c.toNat < 32) := by omega
    simp [escapeChar, h1, h2, h3, h4, h5, h6, h7, h8, parseStringBody, h32]
  by_cases h9 : c.toNat < 65536
  · have hx := hex4_toHex4 (show c.toNat < 65536 from h9)
    have hs1 : ¬(55296 ≤ c.toNat ∧ c.toNat ≤ 56319) := by
      rcases hval with hv | hv <;> omega
    have hs2 : ¬(56320 ≤ c.toNat ∧ c.toNat ≤ 57343) := by
      rcases hval with hv | hv <;> omega
    simp [escapeChar, h1, h2, h3, h4, h5, h6, h7, h8, h9, parseStringBody, parseEsc,
      parseHexEsc, toHex4, hx, hs1, hs2, Char.ofNat_toNat]
  · have hlt : c.toNat < 1114112 := by rcases hval with hv | hv <;> omega
    have hhi : 55296 + (c.toNat - 65536) / 1024 < 65536 := by omega
    have hlo : 56320 + (c.toNat - 65536) % 1024 < 65536 := by omega
    have hr1 : 55296 ≤ 55296 + (c.toNat - 65536) / 1024
        ∧ 55296 + (c.toNat - 65536) / 1024 ≤ 56319 := by omega
    have hr2 : 56320 ≤ 56320 + (c.toNat - 65536) % 1024
        ∧ 56320 + (c.toNat - 65536) % 1024 ≤ 57343 := by omega
    have harith : 65536 + (55296 + (c.toNat - 65536) / 1024 - 55296) * 1024
        + (56320 + (c.toNat - 65536) % 1024 - 56320) = c.toNat := by omega
    have hesc : escapeChar c
        = '\\' :: 'u' :: toHex4 (55296 + (c.toNat - 65536) / 1024) ++
          '\\' :: 'u' :: toHex4 (56320 + (c.toNat - 65536) % 1024) := by
      simp [escapeChar, h1, h2, h3, h4, h5, h6, h7, h8, h9]
    rw [hesc]
    rw [show ('\\' :: 'u' :: toHex4 (55296 + (c.toNat - 65536) / 1024) ++
          '\\' :: 'u' :: toHex4 (56320 + (c.toNat - 65536) % 1024)) ++ cs
        = '\\' :: 'u' :: (toHex4 (55296 + (c.toNat - 65536) / 1024) ++
          ('\\' :: 'u' :: (toHex4 (56320 + (c.toNat - 65536) % 1024) ++ cs)))
      from by simp]
    rw [parseStringBody_backslash_u, parseHexEsc_high hhi hr1,
      parseLowSurrogate_toHex4 _ hlo hr2]
    simp only [harith, Char.ofNat_toNat]

theorem parseStringBody_escList : ∀ (l cs : List Char),
    parseStringBody (escList l ++ '"' :: cs) = some (l, cs) := by
  intro l
  induction l with
  | nil => intro cs; simp [escList, parseStringBody]
  | cons c l ih =>
    intro cs
    simp only [escList, List.append_assoc, parseStringBody_escapeChar, ih, Option.map_some']

theorem encodeString_append (s : String) (X : List Char) :
    encodeString s ++ X = '"' :: (escList s.data ++ ('"' :: X)) := by
  simp [encodeString]

/-! ## Weight positivity -/

theorem weightV_pos (v : Value) : 1 ≤ weightV v := by
  cases v <;> simp [weightV]

theorem weightL_pos (l : List Value) : 1 ≤ weightL l := by
  cases l <;> simp [weightL] <;> omega

theorem weightF_pos (l : List (String × Value)) : 1 ≤ weightF l := by
  cases l with
  | nil => simp [weightF]
  | cons kv fs =>
    obtain ⟨k, v⟩ := kv
    simp [weightF]
    omega

/-! ## The head character of a rendered value -/

theorem renderValue_shape (d : Nat) (v : Value) :
    ∃ c t, renderValue d v = c :: t ∧ isWsChar c = false ∧ c ≠ ']' ∧ c ≠ '\x7d' := by
  cases v with
  | vnull => exact ⟨'n', _, rfl, by decide, by decide, by decide⟩
  | vbool b =>
    cases b
    · exact ⟨'f', _, rfl, by decide, by decide, by decide⟩
    · exact ⟨'t', _, rfl, by decide, by decide, by decide⟩
  | vint n =>
    by_cases hn : n < 0
    · refine ⟨'-', natChars n.natAbs, ?_, by decide, by decide, by decide⟩
      simp [renderValue, intChars, hn]
    · obtain ⟨c, t, hct, hd⟩ := natChars_head n.toNat
      exact ⟨c, t, by simp [renderValue, intChars, hn, hct],
        isWs_false_of_digit hd, ne_of_digitCh hd (by decide), ne_of_digitCh hd (by decide)⟩
  | vstr s =>
    refine ⟨'"', escList s.data ++ ['"'], ?_, by decide, by decide, by decide⟩
    simp [renderValue, encodeString]
  | varr items =>
    cases items with
    | nil => exact ⟨'[', _, rfl, by decide, by decide, by decide⟩
    | cons v vs =>
      refine ⟨'[', nlInd (d + 2) ++ renderValue (d + 2) v ++ renderItemsTail (d + 2) vs ++
        nlInd d ++ [']'], ?_, by decide, by decide, by decide⟩
      simp [renderValue]
  | vobj fields =>
    cases fields with
    | nil => exact ⟨'\x7b', _, rfl, by decide, by decide, by decide⟩
    | cons kv fs =>
      obtain ⟨k, v⟩ := kv
      refine ⟨'\x7b', nlInd (d + 2) ++ encodeString k ++ ':' :: ' ' :: renderValue (d + 2) v ++
        renderFieldsTail (d + 2) fs ++ nlInd d ++ ['\x7d'], ?_, by decide, by decide, by decide⟩
      simp [renderValue]

/-! ## parseValue head dispatch for containers -/

theorem parseValue_bracket (f : Nat) (cs' : List Char) :
    parseValue (f + 1) ('[' :: cs')
      = (match skipWs cs' with
         | x :: r =>
           if x = ']' then some (.varr [], r)
           else (parseElems f cs').map (fun p => (.varr p.1, p.2))
         | [] => (parseElems f cs').map (fun p => (.varr p.1, p.2))) := by
  have h1 : isWsChar '[' = false := by decide
  have h2 : isDigitCh '[' = false := by decide
  simp [parseValue, skipWs_cons_not_ws h1, h2]

theorem parseValue_brace (f : Nat) (cs' : List Char) :
    parseValue (f + 1) ('\x7b' :: cs')
      = (match skipWs cs' with
         | x :: r =>
           if x = '\x7d' then some (.vobj [], r)
           else (parseFields f cs').map (fun p => (.vobj p.1, p.2))
         | [] => (parseFields f cs').map (fun p => (.vobj p.1, p.2))) := by
  have h1 : isWsChar '\x7b' = false := by decide
  have h2 : isDigitCh '\x7b' = false := by decide
  simp [parseValue, skipWs_cons_not_ws h1, h2]

/-! ## Round trip assembly: array elements and object fields -/

theorem parseElems_render : ∀ (vs : List Value) (v : Value) (din d : Nat) (rest : List Char)
    (fuel : Nat), RoundTrip v → (∀ u ∈ vs, RoundTrip u) → restOk rest = true →
    weightV v + weightL vs ≤ fuel →
    parseElems fuel
      (renderValue din v ++ (renderItemsTail din vs ++ (nlInd d ++ ']' :: rest)))
      = some (v :: vs, rest) := by
  intro vs
  induction vs with
  | nil =>
    intro v din d rest fuel hv _ hr hf
    have h1 := weightV_pos v
    have hL : weightL ([] : List Value) = 1 := rfl
    cases fuel with
    | zero => omega
    | succ f =>
      simp only [show renderItemsTail din ([] : List Value) = ([] : List Char) from rfl,
        List.nil_append]
      simp only [parseElems]
      rw [hv din (nlInd d ++ ']' :: rest) f rfl (by omega)]
      simp only []
      rw [skipWs_nlInd, skipWs_cons_not_ws (show isWsChar ']' = false from by decide)]
      simp
  | cons v' vs' ih =>
    intro v din d rest fuel hv hall hr hf
    have h1 := weightV_pos v
    have h2 := weightV_pos v'
    have h3 := weightL_pos vs'
    have hL : weightL (v' :: vs') = 1 + weightV v' + weightL vs' := rfl
    cases fuel with
    | zero => omega
    | succ f =>
      have hstream : renderItemsTail din (v' :: vs') ++ (nlInd d ++ ']' :: rest)
          = ',' :: (nlInd din ++ (renderValue din v' ++
              (renderItemsTail din vs' ++ (nlInd d ++ ']' :: rest)))) := by
        simp [renderItemsTail]
      rw [hstream]
      simp only [parseElems]
      rw [hv din (',' :: (nlInd din ++ (renderValue din v' ++
            (renderItemsTail din vs' ++ (nlInd d ++ ']' :: rest))))) f rfl (by omega)]
      have hih := ih v' din d rest f (hall v' (List.mem_cons_self v' vs'))
        (fun u hu => hall u (List.mem_cons_of_mem v' hu)) hr (by omega)
      simp [skipWs_cons_not_ws (show isWsChar ',' = false from by decide),
        parseElems_nlInd, hih]

theorem parseFields_render : ∀ (fs : List (String × Value)) (k : String) (v : Value)
    (din d : Nat) (rest : List Char) (fuel : Nat),
    RoundTrip v → (∀ u ∈ fs, RoundTrip u.2) → restOk rest = true →
    weightV v + weightF fs ≤ fuel →
    parseFields fuel
      (encodeString k ++ (':' :: ' ' :: (renderValue din v ++
        (renderFieldsTail din fs ++ (nlInd d ++ '\x7d' :: rest)))))
      = some ((k, v) :: fs, rest) := by
  intro fs
  induction fs with
  | nil =>
    intro k v din d rest fuel hv _ hr hf
    have h1 := weightV_pos v
    have hL : weightF ([] : List (String × Value)) = 1 := rfl
    cases fuel with
    | zero => omega
    | succ f =>
      simp only [show renderFieldsTail din ([] : List (String × Value)) = ([] : List Char)
          from rfl, List.nil_append]
      rw [encodeString_append]
      simp only [parseFields]
      have hvv := hv din (nlInd d ++ '\x7d' :: rest) f rfl (by omega)
      simp [skipWs_cons_not_ws (show isWsChar '"' = false from by decide),
        parseStringBody_escList,
        skipWs_cons_not_ws (show isWsChar ':' = false from by decide),
        parseValue_ws_cons (show isWsChar ' ' = true from by decide), hvv,
        skipWs_nlInd, skipWs_cons_not_ws (show isWsChar '\x7d' = false from by decide)]
  | cons kv fs' ih =>
    obtain ⟨k', v'⟩ := kv
    intro k v din d rest fuel hv hall hr hf
    have h1 := weightV_pos v
    have h2 := weightV_pos v'
    have h3 := weightF_pos fs'
    have hL : weightF ((k', v') :: fs') = 1 + weightV v' + weightF fs' := rfl
    cases fuel with
    | zero => omega
    | succ f =>
      have hstream : renderFieldsTail din ((k', v') :: fs') ++ (nlInd d ++ '\x7d' :: rest)
          = ',' :: (nlInd din ++ (encodeString k' ++ (':' :: ' ' :: (renderValue din v' ++
              (renderFieldsTail din fs' ++ (nlInd d ++ '\x7d' :: rest)))))) := by
        simp [renderFieldsTail]
      rw [encodeString_append, hstream]
      simp only [parseFields]
      have hvv := hv din (',' :: (nlInd din ++ (encodeString k' ++ (':' :: ' ' ::
        (renderValue din v' ++ (renderFieldsTail din fs' ++ (nlInd d ++ '\x7d' :: rest)))))))
        f rfl (by omega)
      have hih := ih k' v' din d rest f (hall (k', v') (List.mem_cons_self (k', v') fs'))
        (fun u hu => hall u (List.mem_cons_of_mem (k', v') hu)) hr (by omega)
      simp [skipWs_cons_not_ws (show isWsChar '"' = false from by decide),
        parseStringBody_escList,
        skipWs_cons_not_ws (show isWsChar ':' = false from by decide),
        parseValue_ws_cons (show isWsChar ' ' = true from by decide), hvv,
        skipWs_cons_not_ws (show isWsChar ',' = false from by decide),
        parseFields_nlInd, hih]

/-! ## The serializer/parser round trip -/

theorem roundTrip_all : ∀ v : Value, RoundTrip v := by
  refine valueIndV RoundTrip (fun l => ∀ u ∈ l, RoundTrip u)
    (fun l => ∀ u ∈ l, RoundTrip u.2) ?_ ?_ ?_ ?_ ?_ ?_ ?_ ?_ ?_ ?_
  · intro d rest fuel hr hf
    have h1 : weightV .vnull = 1 := rfl
    cases fuel with
    | zero => omega
    | succ f =>
      show parseValue (f + 1) ('n' :: 'u' :: 'l' :: 'l' :: rest) = some (.vnull, rest)
      simp [parseValue, skipWs_cons_not_ws (show isWsChar 'n' = false from by decide)]
  · intro b d rest fuel hr hf
    have h1 : weightV (.vbool b) = 1 := by cases b <;> rfl
    cases fuel with
    | zero => omega
    | succ f =>
      cases b
      · show parseValue (f + 1) ('f' :: 'a' :: 'l' :: 's' :: 'e' :: rest)
            = some (.vbool false, rest)
        simp [parseValue, skipWs_cons_not_ws (show isWsChar 'f' = false from by decide)]
      · show parseValue (f + 1) ('t' :: 'r' :: 'u' :: 'e' :: rest) = some (.vbool true, rest)
        simp [parseValue, skipWs_cons_not_ws (show isWsChar 't' = false from by decide)]
  · intro n d rest fuel hr hf
    have h1 : weightV (.vint n) = 1 := rfl
    cases fuel with
    | zero => omega
    | succ f =>
      by_cases hn : n < 0
      · have hren : renderValue d (.vint n) ++ rest = '-' :: (natChars n.natAbs ++ rest) := by
          simp [renderValue, intChars, hn]
        rw [hren]
        have hpn := @parseNum_natChars n.natAbs rest hr
        have hneg : (-(n.natAbs : Int)) = n := by omega
        simp [parseValue, skipWs_cons_not_ws (show isWsChar '-' = false from by decide),
          hpn, hneg]
        rw [abs_of_neg hn, neg_neg]
      · obtain ⟨c, t, hct, hd⟩ := natChars_head n.toNat
        have hren : renderValue d (.vint n) ++ rest = c :: (t ++ rest) := by
          simp [renderValue, intChars, hn, hct]
        rw [hren]
        simp only [parseValue]
        rw [skipWs_cons_not_ws (isWs_false_of_digit hd)]
        simp [ne_of_digitCh hd (show isDigitCh 'n' = false from by decide),
          ne_of_digitCh hd (show isDigitCh 't' = false from by decide),
          ne_of_digitCh hd (show isDigitCh 'f' = false from by decide),
          ne_of_digitCh hd (show isDigitCh '"' = false from by decide),
          ne_of_digitCh hd (show isDigitCh '-' = false from by decide), hd]
        have hback : c :: (t ++ rest) = natChars n.toNat ++ rest := by rw [hct]; simp
        have hpn := @parseNum_natChars n.toNat rest hr
        have hpos : ((n.toNat : Int)) = n := Int.toNat_of_nonneg (by omega)
        rw [hback, hpn]
        simp [hpos]
  · intro s d rest fuel hr hf
    have h1 : weightV (.vstr s) = 1 := rfl
    cases fuel with
    | zero => omega
    | succ f =>
      have hren : renderValue d (.vstr s) ++ rest
          = '"' :: (escList s.data ++ ('"' :: rest)) := by
        simp [renderValue, encodeString]
      rw [hren]
      simp [parseValue, skipWs_cons_not_ws (show isWsChar '"' = false from by decide),
        parseStringBody_escList]
  · intro items hQ
    cases items with
    | nil =>
      intro d rest fuel hr hf
      have h1 : weightV (.varr []) = 2 := rfl
      cases fuel with
      | zero => omega
      | succ f =>
        show parseValue (f + 1) ('[' :: (']' :: rest)) = some (.varr [], rest)
        rw [parseValue_bracket, skipWs_cons_not_ws (show isWsChar ']' = false from by decide)]
        simp
    | cons v vs =>
      intro d rest fuel hr hf
      have h2 := weightV_pos v
      have h3 := weightL_pos vs
      have hW : weightV (.varr (v :: vs)) = 1 + (1 + weightV v + weightL vs) := rfl
      cases fuel with
      | zero => omega
      | succ f =>
        have hren : renderValue d (.varr (v :: vs)) ++ rest
            = '[' :: (nlInd (d + 2) ++ (renderValue (d + 2) v ++
                (renderItemsTail (d + 2) vs ++ (nlInd d ++ ']' :: rest)))) := by
          simp [renderValue]
        rw [hren, parseValue_bracket]
        obtain ⟨c0, t0, hc0, hw0, hnb0, hnB0⟩ := renderValue_shape (d + 2) v
        have hskip : skipWs (nlInd (d + 2) ++ (renderValue (d + 2) v ++
            (renderItemsTail (d + 2) vs ++ (nlInd d ++ ']' :: rest))))
            = c0 :: (t0 ++ (renderItemsTail (d + 2) vs ++ (nlInd d ++ ']' :: rest))) := by
          rw [skipWs_nlInd, hc0, List.cons_append, skipWs_cons_not_ws hw0]
        rw [hskip]
        have hE := parseElems_render vs v (d + 2) d rest f
          (hQ v (List.mem_cons_self v vs)) (fun u hu => hQ u (List.mem_cons_of_mem v hu))
          hr (by omega)
        simp [hnb0, parseElems_nlInd, hE]
  · intro fields hR
    cases fields with
    | nil =>
      intro d rest fuel hr hf
      have h1 : weightV (.vobj []) = 2 := rfl
      cases fuel with
      | zero => omega
      | succ f =>
        show parseValue (f + 1) ('\x7b' :: ('\x7d' :: rest)) = some (.vobj [], rest)
        rw [parseValue_brace,
          skipWs_cons_not_ws (show isWsChar '\x7d' = false from by decide)]
        simp
    | cons kv fs =>
      obtain ⟨k, v⟩ := kv
      intro d rest fuel hr hf
      have h2 := weightV_pos v
      have h3 := weightF_pos fs
      have hW : weightV (.vobj ((k, v) :: fs)) = 1 + (1 + weightV v + weightF fs) := rfl
      cases fuel with
      | zero => omega
      | succ f =>
        have hren : renderValue d (.vobj ((k, v) :: fs)) ++ rest
            = '\x7b' :: (nlInd (d + 2) ++ (encodeString k ++ (':' :: ' ' ::
                (renderValue (d + 2) v ++ (renderFieldsTail (d + 2) fs ++
                  (nlInd d ++ '\x7d' :: rest)))))) := by
          simp [renderValue]
        rw [hren, parseValue_brace]
        have hskip : skipWs (nlInd (d + 2) ++ (encodeString k ++ (':' :: ' ' ::
            (renderValue (d + 2) v ++ (renderFieldsTail (d + 2) fs ++
              (nlInd d ++ '\x7d' :: rest))))))
            = '"' :: (escList k.data ++ ('"' :: (':' :: ' ' ::
                (renderValue (d + 2) v ++ (renderFieldsTail (d + 2) fs ++
                  (nlInd d ++ '\x7d' :: rest)))))) := by
          rw [skipWs_nlInd, encodeString_append,
            skipWs_cons_not_ws (show isWsChar '"' = false from by decide)]
        rw [hskip]
        have hF := parseFields_render fs k v (d + 2) d rest f
          (hR (k, v) (List.mem_cons_self (k, v) fs))
          (fun u hu => hR u (List.mem_cons_of_mem (k, v) hu)) hr (by omega)
        have hcs : nlInd (d + 2) ++ (encodeString k ++ (':' :: ' ' ::
            (renderValue (d + 2) v ++ (renderFieldsTail (d + 2) fs ++
              (nlInd d ++ '\x7d' :: rest)))))
            = nlInd (d + 2) ++ (encodeString k ++ (':' :: ' ' ::
              (renderValue (d + 2) v ++ (renderFieldsTail (d + 2) fs ++
                (nlInd d ++ '\x7d' :: rest))))) := rfl
        simp [parseFields_nlInd, hF]
  · intro u hu
    exact absurd hu (List.not_mem_nil u)
  · intro v vs hP hQ u hu
    rcases List.mem_cons.mp hu with h | h
    · subst h; exact hP
    · exact hQ u h
  · intro u hu
    exact absurd hu (List.not_mem_nil u)
  · intro k v fs hP hR u hu
    rcases List.mem_cons.mp hu with h | h
    · subst h; exact hP
    · exact hR u h

/-! ## Fuel sufficiency: the weight is bounded by the rendering length -/

theorem weightV_le_renderLength : ∀ (v : Value) (d : Nat),
    weightV v ≤ (renderValue d v).length := by
  refine valueIndV (fun v => ∀ d, weightV v ≤ (renderValue d v).length)
    (fun l => ∀ d, weightL l ≤ (renderItemsTail d l).length + 1)
    (fun l => ∀ d, weightF l ≤ (renderFieldsTail d l).length + 1) ?_ ?_ ?_ ?_ ?_ ?_ ?_ ?_ ?_ ?_
  · intro d; simp [weightV, renderValue]
  · intro b d; cases b <;> simp [weightV, renderValue]
  · intro n d
    have h1 : natChars n.toNat ≠ [] := natCharsAux_ne_nil _ _ (Nat.lt_succ_self _)
    have h2 : natChars n.natAbs ≠ [] := natCharsAux_ne_nil _ _ (Nat.lt_succ_self _)
    have h1p : 0 < (natChars n.toNat).length := List.length_pos.mpr h1
    have h2p : 0 < (natChars n.natAbs).length := List.length_pos.mpr h2
    by_cases hn : n < 0 <;> simp [weightV, renderValue, intChars, hn] <;> omega
  · intro s d; simp [weightV, renderValue, encodeString]
  · intro items hQ d
    cases items with
    | nil => simp [weightV, weightL, renderValue]
    | cons v vs =>
      have h := hQ (d + 2)
      simp only [weightV, weightL, renderValue, renderItemsTail, List.length_append,
        List.length_cons, nlInd, List.length_replicate] at h ⊢
      omega
  · intro fields hR d
    cases fields with
    | nil => simp [weightV, weightF, renderValue]
    | cons kv fs =>
      obtain ⟨k, v⟩ := kv
      have h := hR (d + 2)
      simp only [weightV, weightF, renderValue, renderFieldsTail, List.length_append,
        List.length_cons, nlInd, List.length_replicate, encodeString] at h ⊢
      omega
  · intro d; simp [weightL, renderItemsTail]
  · intro v vs hP hQ d
    have h1 := hP d
    have h2 := hQ d
    simp only [weightL, renderItemsTail, List.length_append, List.length_cons, nlInd,
      List.length_replicate] at h2 ⊢
    omega
  · intro d; simp [weightF, renderFieldsTail]
  · intro k v fs hP hR d
    have h1 := hP d
    have h2 := hR d
    simp only [weightF, renderFieldsTail, List.length_append, List.length_cons, nlInd,
      List.length_replicate, encodeString] at h2 ⊢
    omega

/-- The serializer/parser round trip at the top level: `json.loads` inverts
`json.dumps(-, indent=2)` on every embedded value. -/
theorem loads_dumps (v : Value) : loads (dumps v) = some v := by
  have hw := weightV_le_renderLength v 0
  have hrt := roundTrip_all v 0 [] ((renderValue 0 v).length + 1) rfl (by omega)
  rw [List.append_nil] at hrt
  have hdata : (dumps v).data = renderValue 0 v := rfl
  simp only [loads, hdata]
  rw [hrt]
  simp [skipWs]

/-! ## Handler characterizations -/

/-- With the handle initialized, the `execute_query` tool handler returns the
serialized rows or the `"Error: ..."` string, depending on the backend. -/
theorem execute_query_eq (st : ServerState) (db : BigQueryDatabase)
    (h : st.db = some db) (q : String) :
    execute_query st q = .ok (match (db.execute_query q []).2 with
      | .ok results => dumps (recordsValue results)
      | .error e => "Error: " ++ e) := by
  have hg : get_db st = Except.ok db := by simp [get_db, h]
  cases hE : (db.execute_query q []).2 with
  | error e => simp [execute_query, hg, hE]
  | ok results => simp [execute_query, hg, hE]

/-- With the handle initialized, the `list_tables` tool handler returns the
serialized table names or the `"Error: ..."` string. -/
theorem list_tables_eq (st : ServerState) (db : BigQueryDatabase)
    (h : st.db = some db) :
    list_tables st = .ok (match db.list_tables with
      | .ok tables => dumps (stringsValue tables)
      | .error e => "Error: " ++ e) := by
  have hg : get_db st = Except.ok db := by simp [get_db, h]
  cases hE : db.list_tables with
  | error e => simp [list_tables, hg, hE]
  | ok tables => simp [list_tables, hg, hE]

/-- With the handle initialized, the `describe_table` tool handler returns the
serialized schema rows or the `"Error: ..."` string. -/
theorem describe_table_eq (st : ServerState) (db : BigQueryDatabase)
    (h : st.db = some db) (n : String) :
    describe_table st n = .ok (match (db.describe_table n).2 with
      | .ok schema => dumps (recordsValue schema)
      | .error e => "Error: " ++ e) := by
  have hg : get_db st = Except.ok db := by simp [get_db, h]
  cases hE : (db.describe_table n).2 with
  | error e => simp [describe_table, hg, hE]
  | ok schema => simp [describe_table, hg, hE]

/-! ## Claim theorems -/

/-- Claim C1 (counterexample): the claim fails as stated.  With the module
global `_db` still `None`, `get_db()` runs outside the handler's
`try`/`except`, so invoking the `execute_query` tool raises `RuntimeError`
past the handler boundary instead of returning a result string. -/
theorem c1_uninitialized_handler_raises :
    execute_query ⟨none⟩ "SELECT 1" = .error "BigQueryDatabase not initialized" := rfl

/-- Claim C1 (amended): once the shared database handle is initialized, no
tool handler raises past its boundary — every backend failure is caught by
the `try`/`except` and converted into an ordinary result string. -/
theorem c1_handlers_never_raise (st : ServerState) (db : BigQueryDatabase)
    (h : st.db = some db) (q n : String) :
    (∃ out, execute_query st q = .ok out) ∧
    (∃ out, list_tables st = .ok out) ∧
    (∃ out, describe_table st n = .ok out) :=
  ⟨⟨_, execute_query_eq st db h q⟩, ⟨_, list_tables_eq st db h⟩,
   ⟨_, describe_table_eq st db h n⟩⟩

/-- Claim C1 (witness): the amended statement at a concrete initialized state
and concrete arguments. -/
theorem c1_handlers_never_raise_witness :
    (∃ out, execute_query ⟨some stubDb⟩ "SELECT 1" = .ok out) ∧
    (∃ out, list_tables ⟨some stubDb⟩ = .ok out) ∧
    (∃ out, describe_table ⟨some stubDb⟩ "d.t" = .ok out) :=
  c1_handlers_never_raise ⟨some stubDb⟩ stubDb rfl "SELECT 1" "d.t"

/-- Claim C2: a table name that does not split into exactly two dot-separated
segments makes `describe_table` fail with `Invalid table name: <name>` while
issuing no backend call (the trace is empty), and the tool handler surfaces
the corresponding error string. -/
theorem c2_invalid_table_name (db : BigQueryDatabase) (name : String)
    (h : (pySplitDot name).length ≠ 2) :
    db.describe_table name = ([], .error ("Invalid table name: " ++ name)) ∧
    ∀ st : ServerState, st.db = some db →
      describe_table st name = .ok ("Error: " ++ ("Invalid table name: " ++ name)) := by
  have hdt : db.describe_table name = ([], .error ("Invalid table name: " ++ name)) := by
    unfold BigQueryDatabase.describe_table
    rcases hps : pySplitDot name with _ | ⟨a, _ | ⟨b, _ | ⟨c, l⟩⟩⟩
    · rfl
    · rfl
    · rw [hps] at h; simp at h
    · rfl
  refine ⟨hdt, fun st hst => ?_⟩
  rw [describe_table_eq st db hst name, hdt]

/-- Claim C2 (witness): the end-to-end scenario
`describe_table("bad_name_no_dot")` fails immediately, naming the input, with
an empty backend trace. -/
theorem c2_invalid_table_name_witness :
    stubDb.describe_table "bad_name_no_dot"
      = ([], .error ("Invalid table name: " ++ "bad_name_no_dot")) :=
  (c2_invalid_table_name stubDb "bad_name_no_dot" (by decide)).1

/-- Claim C3: serializing a backend result list and parsing it back yields a
structurally equal value, and concretely `execute_query("SELECT 1 AS x")`
against the stub backend returning one row with field `x = 1` produces a
success payload whose text parses back to that same row list. -/
theorem c3_round_trip :
    (∀ rows : List Record, loads (dumps (recordsValue rows)) = some (recordsValue rows)) ∧
    execute_query ⟨some stubDb⟩ "SELECT 1 AS x"
      = .ok "[\n  \x7b\n    \"x\": 1\n  \x7d\n]" ∧
    loads "[\n  \x7b\n    \"x\": 1\n  \x7d\n]" = some (recordsValue [[("x", .vint 1)]]) :=
  ⟨fun rows => loads_dumps (recordsValue rows), rfl, rfl⟩

/-- Claim C4: `execute_query` forwards the query text verbatim as the sole
backend call, performing no validation of its own, and a backend-reported
failure surfaces unchanged as the query's error. -/
theorem c4_forward_verbatim (db : BigQueryDatabase) (q : String) :
    db.execute_query q [] = ([(q, [])], db.client.runQuery q []) ∧
    ∀ e, db.client.runQuery q [] = .error e → (db.execute_query q []).2 = .error e :=
  ⟨rfl, fun _ he => he⟩

/-- Claim C4 (witness): a malformed query is forwarded verbatim to a failing
backend and its error surfaces unchanged. -/
theorem c4_forward_verbatim_witness :
    errDb.execute_query "bad sql" [] = ([("bad sql", [])], errDb.client.runQuery "bad sql" []) ∧
    (errDb.execute_query "bad sql" []).2 = .error "boom" :=
  ⟨(c4_forward_verbatim errDb "bad sql").1,
   (c4_forward_verbatim errDb "bad sql").2 "boom" rfl⟩

/-- Claim C6: the registered tools are exactly `execute_query(query: string)`,
`list_tables()` and `describe_table(table_name: string)`, and the wire
dispatchers accept exactly those argument shapes. -/
theorem c6_tool_registry :
    registeredTools.map (fun t => (t.name, t.params))
      = [("execute_query", [("query", JType.string)]),
         ("list_tables", []),
         ("describe_table", [("table_name", JType.string)])] ∧
    (∀ st q, execute_query_wire st [("query", q)] = some (execute_query st q)) ∧
    (∀ st, list_tables_wire st [] = some (list_tables st)) ∧
    (∀ st n, describe_table_wire st [("table_name", n)] = some (describe_table st n)) ∧
    (∀ st k v, k ≠ "query" → execute_query_wire st [(k, v)] = none) ∧
    (∀ st a args, list_tables_wire st (a :: args) = none) ∧
    (∀ st k v, k ≠ "table_name" → describe_table_wire st [(k, v)] = none) := by
  refine ⟨rfl, fun st q => rfl, fun st => rfl, fun st n => rfl, ?_, fun st a args => rfl, ?_⟩
  · intro st k v hk
    simp [execute_query_wire, hk]
  · intro st k v hk
    simp [describe_table_wire, hk]

/-- Claim C6 (witness): a wrongly named argument is rejected by the wire
dispatchers of both unary-argument tools. -/
theorem c6_tool_registry_witness :
    execute_query_wire ⟨some stubDb⟩ [("oops", "1")] = none ∧
    describe_table_wire ⟨some stubDb⟩ [("oops", "1")] = none :=
  ⟨c6_tool_registry.2.2.2.2.1 ⟨some stubDb⟩ "oops" "1" (by decide),
   c6_tool_registry.2.2.2.2.2.2 ⟨some stubDb⟩ "oops" "1" (by decide)⟩

/-- Claim C7: the status endpoint returns the constant object with exactly
the keys `status`, `message` and the streaming-endpoint field, the latter
holding the path of the SSE streaming endpoint; the response is a closed
constant, so no database handle and no session state is touched. -/
theorem c7_status_endpoint :
    mcp_status.map Prod.fst = ["status", "message", "sse_endpoint"] ∧
    mcp_status.lookup "sse_endpoint" = some (.vstr handle_sse_path) ∧
    mcp_status.lookup "status" = some (.vstr "ok") ∧
    mcp_status.lookup "message" = some (.vstr "MCP BigQuery server is running.") :=
  ⟨rfl, rfl, rfl, rfl⟩

/-- Claim C8: the backend handle is a single shared instance — initialized
exactly once at process start from the environment, read (never reassigned)
by every tool invocation, and threaded unchanged through request serving. -/
theorem c8_single_shared_handle (client : Client) (env : Env) (reqs : List Request)
    (db : BigQueryDatabase) (h : init_db_from_env client env = .ok db) :
    runServer client env reqs = .ok (reqs.map (dispatch ⟨some db⟩)) ∧
    processRequests ⟨some db⟩ reqs = (⟨some db⟩, reqs.map (dispatch ⟨some db⟩)) ∧
    get_db ⟨some db⟩ = .ok db := by
  have hproc : ∀ st : ServerState, processRequests st reqs = (st, reqs.map (dispatch st)) := by
    intro st
    induction reqs with
    | nil => rfl
    | cons r rs ih => simp [processRequests, ih]
  refine ⟨?_, hproc _, rfl⟩
  simp only [runServer, h]
  rw [hproc ⟨some db⟩]

/-- Claim C8 (witness): a concrete startup initializes the handle once and
serves a request sequence against that same handle. -/
theorem c8_single_shared_handle_witness :
    runServer stubClient stubEnv [Request.listTables]
      = .ok ([Request.listTables].map (dispatch ⟨some stubDb⟩)) :=
  (c8_single_shared_handle stubClient stubEnv [Request.listTables] stubDb rfl).1

/-- Claim C9: every error-branch result of each tool handler is the string
`"Error: "` followed by the caught message, every success result is the
`json.dumps(-, indent=2)` serialization of a list, and the two are
distinguishable from the result text alone (first character `E` versus `[`). -/
theorem c9_result_shapes (st : ServerState) (db : BigQueryDatabase)
    (h : st.db = some db) (q n : String) :
    ((∀ e, (db.execute_query q []).2 = .error e →
        execute_query st q = .ok ("Error: " ++ e)) ∧
     (∀ rows, (db.execute_query q []).2 = .ok rows →
        execute_query st q = .ok (dumps (recordsValue rows)))) ∧
    ((∀ e, db.list_tables = .error e → list_tables st = .ok ("Error: " ++ e)) ∧
     (∀ ts, db.list_tables = .ok ts → list_tables st = .ok (dumps (stringsValue ts)))) ∧
    ((∀ e, (db.describe_table n).2 = .error e →
        describe_table st n = .ok ("Error: " ++ e)) ∧
     (∀ rows, (db.describe_table n).2 = .ok rows →
        describe_table st n = .ok (dumps (recordsValue rows)))) ∧
    (∀ e : String, ("Error: " ++ e).data.head? = some 'E') ∧
    (∀ rows : List Record, (dumps (recordsValue rows)).data.head? = some '[') ∧
    (∀ ts : List String, (dumps (stringsValue ts)).data.head? = some '[') := by
  refine ⟨⟨?_, ?_⟩, ⟨?_, ?_⟩, ⟨?_, ?_⟩, fun e => rfl, ?_, ?_⟩
  · intro e he; rw [execute_query_eq st db h q, he]
  · intro rows hr; rw [execute_query_eq st db h q, hr]
  · intro e he; rw [list_tables_eq st db h, he]
  · intro ts ht; rw [list_tables_eq st db h, ht]
  · intro e he; rw [describe_table_eq st db h n, he]
  · intro rows hr; rw [describe_table_eq st db h n, hr]
  · intro rows; cases rows <;> rfl
  · intro ts; cases ts <;> rfl

/-- Claim C9 (witness): a failing backend yields the `"Error: "`-led string
and a healthy backend yields the serialized list, at concrete states. -/
theorem c9_result_shapes_witness :
    execute_query ⟨some errDb⟩ "q" = .ok ("Error: " ++ "boom") ∧
    list_tables ⟨some stubDb⟩ = .ok (dumps (stringsValue ["ds.t1"])) :=
  ⟨((c9_result_shapes ⟨some errDb⟩ errDb rfl "q" "d.t").1.1) "boom" rfl,
   ((c9_result_shapes ⟨some stubDb⟩ stubDb rfl "q" "d.t").2.1.2) ["ds.t1"] rfl⟩

/-- Claim C10: for a well-formed name `d.t`, `describe_table` issues exactly
one backend query whose text depends only on the dataset segment, binding the
table segment solely as the `@table_name` parameter; two names with the same
dataset segment produce identical query text. -/
theorem c10_parameterized_describe (db : BigQueryDatabase) (name d t : String)
    (h : pySplitDot name = [d, t]) :
    db.describe_table name
      = ([(describeQuery d, [⟨"table_name", "STRING", t⟩])],
         db.client.runQuery (describeQuery d) [⟨"table_name", "STRING", t⟩]) ∧
    ∀ (db₂ : BigQueryDatabase) (name₂ t₂ : String), pySplitDot name₂ = [d, t₂] →
      (db₂.describe_table name₂).1.map Prod.fst
        = (db.describe_table name).1.map Prod.fst := by
  have main : ∀ (db' : BigQueryDatabase) (nm d' t' : String), pySplitDot nm = [d', t'] →
      db'.describe_table nm
        = ([(describeQuery d', [⟨"table_name", "STRING", t'⟩])],
           db'.client.runQuery (describeQuery d') [⟨"table_name", "STRING", t'⟩]) := by
    intro db' nm d' t' h'
    unfold BigQueryDatabase.describe_table
    rw [h']
    rfl
  refine ⟨main db name d t h, ?_⟩
  intro db₂ name₂ t₂ h₂
  rw [main db₂ name₂ d t₂ h₂, main db name d t h]
  rfl

/-- Claim C10 (witness): `describe_table("sales.orders")` issues the single
parameterized query, and `sales.t1` yields the same query text. -/
theorem c10_parameterized_describe_witness :
    stubDb.describe_table "sales.orders"
      = ([(describeQuery "sales", [⟨"table_name", "STRING", "orders"⟩])],
         stubDb.client.runQuery (describeQuery "sales") [⟨"table_name", "STRING", "orders"⟩]) ∧
    (stubDb.describe_table "sales.t1").1.map Prod.fst
      = (stubDb.describe_table "sales.orders").1.map Prod.fst :=
  ⟨(c10_parameterized_describe stubDb "sales.orders" "sales" "orders" rfl).1,
   (c10_parameterized_describe stubDb "sales.orders" "sales" "orders" rfl).2
     stubDb "sales.t1" "t1" rfl⟩

end MCPBigQuery
